import Mathlib

/-!
Shallow embedding of the debugger expression evaluator in
`Source/Core/Core/PowerPC/Expression.cpp` (Dolphin), together with proofs of
the specified properties: the variable binding table, binding resolution,
the evaluation pass with bidirectional state synchronization, and the host
function library (guest-memory reads/writes, casts, `callstack`, `streq`).

Conventions of the embedding:
* C++ `double` values are modelled by `Dbl`: either NaN, a signed infinity,
  or a finite value represented as a rational.  The claims under study
  depend on NaN-ness, equality, truncation and data flow, not on binary64
  rounding, so finite doubles are embedded into `ℚ`.
* Machine integers are `Nat` with explicit `% 2 ^ w` wrapping where the
  source narrows.  `static_cast` from `double` to an integer type truncates
  toward zero; for values outside the target range the embedding wraps
  modulo the target width, matching the s64 intermediate the source uses in
  `SynchronizeBindings` and the usual codegen for address casts.
* External collaborators whose code is not part of this repository (the MMU
  guest-memory accessors, the call-stack provider, the `expr` library) are
  modelled from the spec at their interface; each such definition carries a
  doc comment saying so.
-/

/-- Model of a C++ `double` as used by the evaluator: NaN, a signed
infinity, or a finite value (embedded as a rational). -/
inductive Dbl where
  | nan : Dbl
  | inf : Bool → Dbl
  | num : ℚ → Dbl
deriving DecidableEq, Repr

/-- Test for NaN, as `std::isnan`. -/
def Dbl.isnan : Dbl → Bool
  | .nan => true
  | _ => false

/-- Truncation of a rational toward zero, the rounding used by C++
`static_cast` from `double` to an integer type. -/
def ratTrunc (q : ℚ) : ℤ :=
  if q < 0 then -Rat.floor (-q) else Rat.floor q

/-- Wrap an integer into `[0, 2 ^ w)`, the value of the corresponding
unsigned machine integer. -/
def wrapU (w : ℕ) (i : ℤ) : ℕ :=
  (i.emod (2 ^ w)).toNat

/-- Semantics of `static_cast<uN>(double)`: truncate toward zero and wrap
into the target width (NaN and infinities are mapped to 0, the behaviour of
the usual codegen for the source's out-of-range casts). -/
def dblToU (w : ℕ) : Dbl → ℕ
  | .nan => 0
  | .inf _ => 0
  | .num q => wrapU w (ratTrunc q)

/-- Semantics of `static_cast<u32>(static_cast<s64>(double))`, the
conversion `Expression::SynchronizeBindings` applies when writing a slot
back to a 32-bit register: truncate toward zero, wrap into the signed
64-bit range, then take the low 32 bits. -/
def dblToS64ToU32 : Dbl → ℕ
  | .nan => 0
  | .inf _ => 0
  | .num q => wrapU 32 ((ratTrunc q + 2 ^ 63).emod (2 ^ 64) - 2 ^ 63)

/-- Reinterpret an unsigned `w`-bit value as signed (two's complement), as
`Common::BitCast` from `uN` to `sN`. -/
def toSigned (w : ℕ) (n : ℕ) : ℤ :=
  if n < 2 ^ (w - 1) then (n : ℤ) else (n : ℤ) - 2 ^ w

/-- Byte-lexicographic strict comparison on character lists, mirroring
`operator<` on `std::string_view` (all table keys are ASCII, where byte
order and code-point order agree). -/
def lexLt : List Char → List Char → Bool
  | [], [] => false
  | [], _ :: _ => true
  | _ :: _, [] => false
  | a :: as, b :: bs =>
    if a.toNat < b.toNat then true
    else if b.toNat < a.toNat then false
    else lexLt as bs

/-- Strict key order on strings used to sort the binding table. -/
def keyLt (a b : String) : Bool := lexLt a.data b.data

/-- Binding kinds, as `Expression::VarBindingType`: unbound/constant zero,
general register, float register, special register, program counter,
machine status word. -/
inductive VarBindingType where
  | Zero : VarBindingType
  | GPR : VarBindingType
  | FPR : VarBindingType
  | SPR : VarBindingType
  | PCtr : VarBindingType
  | MSR : VarBindingType
deriving DecidableEq, Repr

/-- A resolved binding: kind plus register index, as
`Expression::VarBinding`; the default is the unbound/zero binding. -/
structure VarBinding where
  type : VarBindingType := .Zero
  index : ℕ := 0
deriving DecidableEq, Repr

/-- Key/binding pair of the lookup table (`LookupKV` in the source). -/
abbrev LookupKV := String × VarBinding

/-- The default-constructed binding (`m_binds.emplace_back()` with no
arguments): the unbound/constant-zero kind. -/
def defaultBind : VarBinding := ⟨.Zero, 0⟩

/-- Special-purpose register numbers referenced by the binding table.
Modelled from the spec: the `SPR_*` enumerators come from a processor
header that is not part of this repository; only the table keys (names)
matter to the properties proved here, the numbers are carried as data. -/
def SPR_XER : ℕ := 1

def SPR_LR : ℕ := 8

def SPR_CTR : ℕ := 9

def SPR_DSISR : ℕ := 18

def SPR_DAR : ℕ := 19

def SPR_DEC : ℕ := 22

def SPR_SDR : ℕ := 25

def SPR_SRR0 : ℕ := 26

def SPR_SRR1 : ℕ := 27

def SPR_TL : ℕ := 268

def SPR_TU : ℕ := 269

def SPR_SPRG0 : ℕ := 272

def SPR_SPRG1 : ℕ := 273

def SPR_SPRG2 : ℕ := 274

def SPR_SPRG3 : ℕ := 275

def SPR_EAR : ℕ := 282

def SPR_PVR : ℕ := 287

def SPR_IBAT0U : ℕ := 528

def SPR_IBAT0L : ℕ := 529

def SPR_IBAT1U : ℕ := 530

def SPR_IBAT1L : ℕ := 531

def SPR_IBAT2U : ℕ := 532

def SPR_IBAT2L : ℕ := 533

def SPR_IBAT3U : ℕ := 534

def SPR_IBAT3L : ℕ := 535

def SPR_DBAT0U : ℕ := 536

def SPR_DBAT0L : ℕ := 537

def SPR_DBAT1U : ℕ := 538

def SPR_DBAT1L : ℕ := 539

def SPR_DBAT2U : ℕ := 540

def SPR_DBAT2L : ℕ := 541

def SPR_DBAT3U : ℕ := 542

def SPR_DBAT3L : ℕ := 543

def SPR_IBAT4U : ℕ := 560

def SPR_IBAT4L : ℕ := 561

def SPR_IBAT5U : ℕ := 562

def SPR_IBAT5L : ℕ := 563

def SPR_IBAT6U : ℕ := 564

def SPR_IBAT6L : ℕ := 565

def SPR_IBAT7U : ℕ := 566

def SPR_IBAT7L : ℕ := 567

def SPR_DBAT4U : ℕ := 568

def SPR_DBAT4L : ℕ := 569

def SPR_DBAT5U : ℕ := 570

def SPR_DBAT5L : ℕ := 571

def SPR_DBAT6U : ℕ := 572

def SPR_DBAT6L : ℕ := 573

def SPR_DBAT7U : ℕ := 574

def SPR_DBAT7L : ℕ := 575

def SPR_GQR0 : ℕ := 912

def SPR_HID2 : ℕ := 920

def SPR_WPAR : ℕ := 921

def SPR_DMAU : ℕ := 922

def SPR_DMAL : ℕ := 923

def SPR_ECID_U : ℕ := 924

def SPR_ECID_M : ℕ := 925

def SPR_ECID_L : ℕ := 926

def SPR_USIA : ℕ := 939

def SPR_MMCR0 : ℕ := 952

def SPR_PMC1 : ℕ := 953

def SPR_PMC2 : ℕ := 954

def SPR_SIA : ℕ := 955

def SPR_MMCR1 : ℕ := 956

def SPR_PMC3 : ℕ := 957

def SPR_PMC4 : ℕ := 958

def SPR_HID0 : ℕ := 1008

def SPR_HID1 : ℕ := 1009

def SPR_IABR : ℕ := 1010

def SPR_HID4 : ℕ := 1011

def SPR_DABR : ℕ := 1013

def SPR_L2CR : ℕ := 1017

def SPR_ICTC : ℕ := 1019

def SPR_THRM1 : ℕ := 1020

def SPR_THRM2 : ℕ := 1021

def SPR_THRM3 : ℕ := 1022

/-- Helper building one table entry (keeps the long table literal cheap to
elaborate). -/
def kvE (s : String) (t : VarBindingType) (i : ℕ) : LookupKV := (s, ⟨t, i⟩)

/-- The static binding domain list, in source order, as the
`unsorted_lookup` array in `Expression::Expression`. -/
def unsorted_lookup : List LookupKV := [
  kvE "r0" .GPR 0, kvE "r1" .GPR 1, kvE "r2" .GPR 2, kvE "r3" .GPR 3,
  kvE "r4" .GPR 4, kvE "r5" .GPR 5, kvE "r6" .GPR 6, kvE "r7" .GPR 7,
  kvE "r8" .GPR 8, kvE "r9" .GPR 9, kvE "r10" .GPR 10, kvE "r11" .GPR 11,
  kvE "r12" .GPR 12, kvE "r13" .GPR 13, kvE "r14" .GPR 14, kvE "r15" .GPR 15,
  kvE "r16" .GPR 16, kvE "r17" .GPR 17, kvE "r18" .GPR 18, kvE "r19" .GPR 19,
  kvE "r20" .GPR 20, kvE "r21" .GPR 21, kvE "r22" .GPR 22, kvE "r23" .GPR 23,
  kvE "r24" .GPR 24, kvE "r25" .GPR 25, kvE "r26" .GPR 26, kvE "r27" .GPR 27,
  kvE "r28" .GPR 28, kvE "r29" .GPR 29, kvE "r30" .GPR 30, kvE "r31" .GPR 31,
  kvE "f0" .FPR 0, kvE "f1" .FPR 1, kvE "f2" .FPR 2, kvE "f3" .FPR 3,
  kvE "f4" .FPR 4, kvE "f5" .FPR 5, kvE "f6" .FPR 6, kvE "f7" .FPR 7,
  kvE "f8" .FPR 8, kvE "f9" .FPR 9, kvE "f10" .FPR 10, kvE "f11" .FPR 11,
  kvE "f12" .FPR 12, kvE "f13" .FPR 13, kvE "f14" .FPR 14, kvE "f15" .FPR 15,
  kvE "f16" .FPR 16, kvE "f17" .FPR 17, kvE "f18" .FPR 18, kvE "f19" .FPR 19,
  kvE "f20" .FPR 20, kvE "f21" .FPR 21, kvE "f22" .FPR 22, kvE "f23" .FPR 23,
  kvE "f24" .FPR 24, kvE "f25" .FPR 25, kvE "f26" .FPR 26, kvE "f27" .FPR 27,
  kvE "f28" .FPR 28, kvE "f29" .FPR 29, kvE "f30" .FPR 30, kvE "f31" .FPR 31,
  kvE "pc" .PCtr 0, kvE "msr" .MSR 0,
  kvE "xer" .SPR SPR_XER, kvE "lr" .SPR SPR_LR, kvE "ctr" .SPR SPR_CTR,
  kvE "dsisr" .SPR SPR_DSISR, kvE "dar" .SPR SPR_DAR, kvE "dec" .SPR SPR_DEC,
  kvE "sdr1" .SPR SPR_SDR, kvE "srr0" .SPR SPR_SRR0, kvE "srr1" .SPR SPR_SRR1,
  kvE "tbl" .SPR SPR_TL, kvE "tbu" .SPR SPR_TU, kvE "pvr" .SPR SPR_PVR,
  kvE "sprg0" .SPR SPR_SPRG0, kvE "sprg1" .SPR SPR_SPRG1,
  kvE "sprg2" .SPR SPR_SPRG2, kvE "sprg3" .SPR SPR_SPRG3,
  kvE "ear" .SPR SPR_EAR,
  kvE "ibat0u" .SPR SPR_IBAT0U, kvE "ibat0l" .SPR SPR_IBAT0L,
  kvE "ibat1u" .SPR SPR_IBAT1U, kvE "ibat1l" .SPR SPR_IBAT1L,
  kvE "ibat2u" .SPR SPR_IBAT2U, kvE "ibat2l" .SPR SPR_IBAT2L,
  kvE "ibat3u" .SPR SPR_IBAT3U, kvE "ibat3l" .SPR SPR_IBAT3L,
  kvE "ibat4u" .SPR SPR_IBAT4U, kvE "ibat4l" .SPR SPR_IBAT4L,
  kvE "ibat5u" .SPR SPR_IBAT5U, kvE "ibat5l" .SPR SPR_IBAT5L,
  kvE "ibat6u" .SPR SPR_IBAT6U, kvE "ibat6l" .SPR SPR_IBAT6L,
  kvE "ibat7u" .SPR SPR_IBAT7U, kvE "ibat7l" .SPR SPR_IBAT7L,
  kvE "dbat0u" .SPR SPR_DBAT0U, kvE "dbat0l" .SPR SPR_DBAT0L,
  kvE "dbat1u" .SPR SPR_DBAT1U, kvE "dbat1l" .SPR SPR_DBAT1L,
  kvE "dbat2u" .SPR SPR_DBAT2U, kvE "dbat2l" .SPR SPR_DBAT2L,
  kvE "dbat3u" .SPR SPR_DBAT3U, kvE "dbat3l" .SPR SPR_DBAT3L,
  kvE "dbat4u" .SPR SPR_DBAT4U, kvE "dbat4l" .SPR SPR_DBAT4L,
  kvE "dbat5u" .SPR SPR_DBAT5U, kvE "dbat5l" .SPR SPR_DBAT5L,
  kvE "dbat6u" .SPR SPR_DBAT6U, kvE "dbat6l" .SPR SPR_DBAT6L,
  kvE "dbat7u" .SPR SPR_DBAT7U, kvE "dbat7l" .SPR SPR_DBAT7L,
  kvE "gqr0" .SPR (SPR_GQR0 + 0), kvE "gqr1" .SPR (SPR_GQR0 + 1),
  kvE "gqr2" .SPR (SPR_GQR0 + 2), kvE "gqr3" .SPR (SPR_GQR0 + 3),
  kvE "gqr4" .SPR (SPR_GQR0 + 4), kvE "gqr5" .SPR (SPR_GQR0 + 5),
  kvE "gqr6" .SPR (SPR_GQR0 + 6), kvE "gqr7" .SPR (SPR_GQR0 + 7),
  kvE "hid0" .SPR SPR_HID0, kvE "hid1" .SPR SPR_HID1,
  kvE "hid2" .SPR SPR_HID2, kvE "hid4" .SPR SPR_HID4,
  kvE "iabr" .SPR SPR_IABR, kvE "dabr" .SPR SPR_DABR,
  kvE "wpar" .SPR SPR_WPAR, kvE "dmau" .SPR SPR_DMAU,
  kvE "dmal" .SPR SPR_DMAL, kvE "ecid_u" .SPR SPR_ECID_U,
  kvE "ecid_m" .SPR SPR_ECID_M, kvE "ecid_l" .SPR SPR_ECID_L,
  kvE "usia" .SPR SPR_USIA, kvE "sia" .SPR SPR_SIA,
  kvE "l2cr" .SPR SPR_L2CR, kvE "ictc" .SPR SPR_ICTC,
  kvE "mmcr0" .SPR SPR_MMCR0, kvE "mmcr1" .SPR SPR_MMCR1,
  kvE "pmc1" .SPR SPR_PMC1, kvE "pmc2" .SPR SPR_PMC2,
  kvE "pmc3" .SPR SPR_PMC3, kvE "pmc4" .SPR SPR_PMC4,
  kvE "thrm1" .SPR SPR_THRM1, kvE "thrm2" .SPR SPR_THRM2,
  kvE "thrm3" .SPR SPR_THRM3]

/-- Insert a key/binding pair into a list sorted by `keyLt` on keys. -/
def insertByKey (kv : LookupKV) : List LookupKV → List LookupKV
  | [] => [kv]
  | x :: xs => if keyLt x.1 kv.1 then x :: insertByKey kv xs else kv :: x :: xs

/-- Sort a key/binding list by key, modelling the `consteval`
`std::ranges::sort` over `unsorted_lookup` (stable comparison sort; the
keys are pairwise distinct, so any comparison sort yields this result). -/
def sortByKey : List LookupKV → List LookupKV
  | [] => []
  | x :: xs => insertByKey x (sortByKey xs)

/-- The process-wide binding table, built once by sorting the static
domain list alphabetically by name (the `sorted_lookup` static). -/
def sorted_lookup : List LookupKV := sortByKey unsorted_lookup

/-- Suffix of the table starting at the first entry whose key is not below
the searched name, mirroring `std::ranges::lower_bound` on the sorted
array (the binary search returns the same position on a sorted range). -/
def lowerBoundSuffix (name : String) : List LookupKV → List LookupKV
  | [] => []
  | kv :: rest => if keyLt kv.1 name then lowerBoundSuffix name rest else kv :: rest

/-- Exact-string lookup in a key/binding list: take the lower bound and
accept it only on exact key equality, as in `Expression::Expression`. -/
def lookupIn (l : List LookupKV) (name : String) : Option VarBinding :=
  match lowerBoundSuffix name l with
  | [] => none
  | kv :: _ => if kv.1 = name then some kv.2 else none

/-- Exact-string lookup in the process-wide binding table. -/
def lookupBinding (name : String) : Option VarBinding :=
  lookupIn sorted_lookup name

/-- Binding resolution for one variable name: the unique table entry on
exact match, the default zero binding otherwise (the `else` branch of the
constructor loop). -/
def resolveBinding (name : String) : VarBinding :=
  match lookupBinding name with
  | some b => b
  | none => defaultBind

/-- Boolean check that the keys of a key/binding list are in strictly
ascending order (adjacent pairs). -/
def chainKeyLt : List LookupKV → Bool
  | [] => true
  | [_] => true
  | a :: b :: rest => keyLt a.1 b.1 && chainKeyLt (b :: rest)

/-- Emulated processor state at the interface the evaluator consumes:
general registers (u32), float registers (PS0 exposed as a double),
special registers (u32, indexed by SPR number), program counter, machine
status word.  Modelled from the spec: the register-file container is an
external collaborator. -/
structure PPCState where
  gpr : ℕ → ℕ
  ps : ℕ → Dbl
  spr : ℕ → ℕ
  pc : ℕ
  msr : ℕ

/-- Point update of a `ℕ`-indexed map. -/
def updAt (f : ℕ → ℕ) (i v : ℕ) : ℕ → ℕ :=
  fun j => if j = i then v else f j

/-- Point update of a `ℕ`-indexed map of doubles. -/
def updAtD (f : ℕ → Dbl) (i : ℕ) (v : Dbl) : ℕ → Dbl :=
  fun j => if j = i then v else f j

/-- Sync-From for one variable: the slot value pulled from processor state
for a binding, as the `SynchronizeDirection::From` arms of the `switch` in
`Expression::SynchronizeBindings` (every arm overwrites the slot; the zero
binding writes the constant 0). -/
def syncFromValue (st : PPCState) (b : VarBinding) : Dbl :=
  match b.type with
  | .Zero => .num 0
  | .GPR => .num (st.gpr b.index)
  | .FPR => st.ps b.index
  | .SPR => .num (st.spr b.index)
  | .PCtr => .num st.pc
  | .MSR => .num st.msr

/-- Sync-To for one variable: the state update pushed for a binding and
slot value, as the `SynchronizeDirection::To` arms of the same `switch`
(zero binding and program counter have no `To` arm and leave the state
unchanged; 32-bit slots receive the `u32(s64(value))` conversion; float
registers receive the double natively via `SetPS0`). -/
def syncToState (st : PPCState) (b : VarBinding) (v : Dbl) : PPCState :=
  match b.type with
  | .Zero => st
  | .GPR => { st with gpr := updAt st.gpr b.index (dblToS64ToU32 v) }
  | .FPR => { st with ps := updAtD st.ps b.index v }
  | .SPR => { st with spr := updAt st.spr b.index (dblToS64ToU32 v) }
  | .PCtr => st
  | .MSR => { st with msr := dblToS64ToU32 v }

/-- Sync-From over the whole variable list: every slot is overwritten from
processor state according to its cached binding. -/
def syncFrom (st : PPCState) (binds : List VarBinding) : List Dbl :=
  binds.map (syncFromValue st)

/-- Sync-To over the whole variable list, walking bindings and slots in
lockstep as the constructor-ordered iteration does. -/
def syncTo (st : PPCState) : List VarBinding → List Dbl → PPCState
  | b :: bs, v :: vs => syncTo (syncToState st b v) bs vs
  | _, _ => st

/-- Diagnostic report produced at the end of an evaluation, as
`Expression::Reporting`: the NaN flag scans the result and every slot, the
trace lists each variable name with its post-evaluation value, the
non-blocking notice fires exactly when NaN was seen, and the log line is
emitted when the result is nonzero or NaN (`result != 0.0` is true for
NaN). -/
structure Report where
  is_nan : Bool
  trace : List (String × Dbl)
  notice : Bool
  logged : Bool
deriving DecidableEq, Repr

/-- Comparison `result != 0.0` on doubles: NaN compares unequal to zero. -/
def Dbl.neZero : Dbl → Bool
  | .nan => true
  | .inf _ => true
  | .num q => decide (q ≠ 0)

/-- The `Expression::Reporting` pass as a pure function of the result and
the post-evaluation variable names and slots. -/
def Reporting (names : List String) (slots : List Dbl) (result : Dbl) :
    Report :=
  let anyNan := result.isnan || slots.any Dbl.isnan
  { is_nan := anyNan
    trace := names.zip slots
    notice := anyNan
    logged := result.neZero || anyNan }

/-- A compiled expression: source text, the constructor-ordered variable
names with their current slot values, and the compiled form.  Modelled
from the spec for the parts owned by the external `expr` library: the
compiled form is an opaque-to-this-core function from slot values to the
double result together with the (possibly mutated) slot values. -/
structure Expression where
  text : String
  varNames : List String
  varValues : List Dbl
  evalFn : List Dbl → Dbl × List Dbl

/-- Cached bindings of a compiled expression: each variable name is
resolved once, at construction, by exact-string lookup in the shared
table (the loop at the end of `Expression::Expression`). -/
def Expression.binds (e : Expression) : List VarBinding :=
  e.varNames.map resolveBinding

/-- Result of one evaluation pass: the returned double, the processor
state after write-back, the post-evaluation slots, and the report. -/
structure EvalResult where
  result : Dbl
  state : PPCState
  slots : List Dbl
  report : Report

/-- One evaluation pass, as `Expression::Evaluate`: Sync-From every slot
from processor state, invoke the compiled form once, Sync-To writable
bindings back into processor state, produce the report, and return the
double result of the compiled form. -/
def Expression.Evaluate (e : Expression) (st : PPCState) : EvalResult :=
  let slots1 := syncFrom st e.binds
  let out := e.evalFn slots1
  let st2 := syncTo st e.binds out.2
  let rep := Reporting e.varNames out.2 out.1
  { result := out.1, state := st2, slots := out.2, report := rep }

/-- Example processor state used by concrete witnesses. -/
def stEx : PPCState :=
  { gpr := fun _ => 0, ps := fun _ => .num 0, spr := fun _ => 0,
    pc := 0, msr := 0 }

/-- Example compiled expression with a single unbound variable, used by
concrete witnesses. -/
def exprEx : Expression :=
  { text := "foo", varNames := ["foo"], varValues := [.num 0],
    evalFn := fun slots => (slots.headD (.num 0), slots) }

/-- Example compiled expression whose compiled form produces NaN, used by
the evaluation-order witness. -/
def exprNan : Expression :=
  { text := "0 / 0", varNames := [], varValues := [],
    evalFn := fun _ => (.nan, []) }

/-- Guest memory at the interface the evaluator consumes.  Modelled from
the spec: the MMU collaborator is external; it is byte-addressed,
address-space-checked, and reports failure by a sentinel that this core
treats as value 0 (reads) or as a dropped store (writes). -/
structure Mem where
  bytes : ℕ → ℕ
  valid : ℕ → Bool

/-- Read one byte of guest memory; an inaccessible address yields 0. -/
def readByte (m : Mem) (a : ℕ) : ℕ :=
  if m.valid a then m.bytes a % 256 else 0

/-- Write one byte of guest memory; a store to an inaccessible address is
dropped. -/
def writeByte (m : Mem) (a v : ℕ) : Mem :=
  if m.valid a then { m with bytes := updAt m.bytes a (v % 256) } else m

/-- Read `n` bytes big-endian starting at `a` (PowerPC guest order). -/
def readBE (m : Mem) (a : ℕ) : ℕ → ℕ
  | 0 => 0
  | n + 1 => readByte m a * 256 ^ n + readBE m (a + 1) n

/-- Write the low `n` bytes of `v` big-endian starting at `a`. -/
def writeBE (m : Mem) (a v : ℕ) : ℕ → Mem
  | 0 => m
  | n + 1 => writeBE (writeByte m a (v / 256 ^ n % 256)) (a + 1) (v % 256 ^ n) n

/-- Round a rational to the nearest integer, ties to even (the IEEE
default rounding used by the modelled float encoder). -/
def roundHalfEven (q : ℚ) : ℤ :=
  let f := Rat.floor q
  let r := q - (f : ℚ)
  if r < 1 / 2 then f
  else if 1 / 2 < r then f + 1
  else if f % 2 = 0 then f else f + 1

/-- Modelled from the spec: the IEEE-754 binary interchange encoding
(sign, `ew`-bit biased exponent, `fw`-bit fraction) that `Common::BitCast`
reinterprets for the f32/f64 host functions — that helper lives outside
this repository.  Rounds to nearest, ties to even; overflows to infinity
and underflows through subnormals. -/
def encodeIEEE (ew fw : ℕ) (d : Dbl) : ℕ :=
  let bias : ℤ := 2 ^ (ew - 1) - 1
  let maxExp : ℕ := 2 ^ ew - 1
  let signBit : ℕ := 2 ^ (ew + fw)
  match d with
  | .nan => maxExp * 2 ^ fw + 2 ^ (fw - 1)
  | .inf s => (if s then signBit else 0) + maxExp * 2 ^ fw
  | .num q =>
    if q = 0 then 0
    else
      let s : ℕ := if q < 0 then signBit else 0
      let x : ℚ := |q|
      let e : ℤ := Int.log 2 x
      if e < 1 - bias then
        let m := roundHalfEven (x * 2 ^ ((fw : ℤ) + bias - 1))
        if m = 2 ^ fw then s + 2 ^ fw
        else s + m.toNat
      else
        let m := roundHalfEven (x * 2 ^ ((fw : ℤ) - e))
        let e2 : ℤ := if m = 2 ^ (fw + 1) then e + 1 else e
        let m2 : ℤ := if m = 2 ^ (fw + 1) then 2 ^ fw else m
        if bias < e2 then s + maxExp * 2 ^ fw
        else s + (e2 + bias).toNat * 2 ^ fw + (m2 - 2 ^ fw).toNat

/-- Modelled from the spec: exact decoding of an IEEE-754 bit pattern into
the double model (the other direction of the `Common::BitCast`
reinterpretation used by the f32/f64 host functions). -/
def decodeIEEE (ew fw : ℕ) (bits : ℕ) : Dbl :=
  let b := bits % 2 ^ (ew + fw + 1)
  let sgn := b / 2 ^ (ew + fw)
  let ex := b / 2 ^ fw % 2 ^ ew
  let frac := b % 2 ^ fw
  let bias : ℤ := 2 ^ (ew - 1) - 1
  if ex = 2 ^ ew - 1 then
    if frac = 0 then .inf (decide (sgn = 1)) else .nan
  else
    let sign : ℚ := if sgn = 1 then -1 else 1
    if ex = 0 then
      .num (sign * frac * 2 ^ (1 - bias - (fw : ℤ)))
    else
      .num (sign * (2 ^ fw + frac) * 2 ^ ((ex : ℤ) - bias - (fw : ℤ)))

/-- Semantics of `static_cast<float>(double)`: round the value to the
nearest binary32 value (encode then decode through the modelled binary32
format). -/
def f32Round (d : Dbl) : Dbl := decodeIEEE 8 23 (encodeIEEE 8 23 d)

/-- One frame of the call stack, as `Dolphin_Debugger::CallstackEntry`.
Modelled from the spec: the call-stack provider is an external
collaborator exposing a return address and a symbol name per frame. -/
structure CallstackEntry where
  vAddress : ℕ
  name : String

/-- Shared state the host functions touch: guest memory and the call
stack provider (`none` models `GetCallstack` reporting failure). -/
structure HostState where
  mem : Mem
  stack : Option (List CallstackEntry)

/-- An argument sub-expression as the host functions observe it through
the `expr` library (modelled from the spec: that library is external):
its evaluated double value (`expr_eval`) and, when the node is a string
literal, the literal itself (`expr_get_str`, `none` for non-literal
nodes). -/
structure Arg where
  val : Dbl
  lit : Option String

/-- Booleans returned to the expression language become 1.0 / 0.0. -/
def boolToDbl (b : Bool) : Dbl := if b then .num 1 else .num 0

/-- Check that `needle` is a leading segment of `hay` (character lists). -/
def hasLead : List Char → List Char → Bool
  | [], _ => true
  | _ :: _, [] => false
  | a :: as, b :: bs => a == b && hasLead as bs

/-- Occurrence check of `needle` anywhere in `hay`, as
`std::string::find(...) != npos`. -/
def containsSeq (needle : List Char) : List Char → Bool
  | [] => hasLead needle []
  | c :: tl => hasLead needle (c :: tl) || containsSeq needle tl

/-- Substring containment on strings (`s.find(cstr) != std::string::npos`
in `CallstackFunc`). -/
def strContains (hay needle : String) : Bool := containsSeq needle.data hay.data

/-- Modelled from the spec: `PowerPC::MMU::HostGetString` — read the
NUL-terminated guest string starting at an address, stopping at a NUL or
an inaccessible byte; fuel bounds it by the 32-bit address space. -/
def getStringAux (m : Mem) : ℕ → ℕ → List Char
  | _, 0 => []
  | a, fuel + 1 =>
    if m.valid a then
      if m.bytes a % 256 = 0 then []
      else Char.ofNat (m.bytes a % 256) :: getStringAux m (a + 1) fuel
    else []

/-- NUL-terminated guest string read (see `getStringAux`). -/
def HostGetString (m : Mem) (a : ℕ) : String :=
  String.mk (getStringAux m a (2 ^ 32))

/-- The generic typed guest-memory read (`HostReadFunc<T, U>`): exactly
one argument or the neutral 0; evaluate it, truncate to a 32-bit address,
read `width` bytes, reinterpret them through `interp` (`BitCast<T>`). -/
def HostReadFunc (width : ℕ) (interp : ℕ → Dbl) :
    List Arg → HostState → Dbl × HostState
  | [a], st => (interp (readBE st.mem (dblToU 32 a.val) width), st)
  | _, st => (.num 0, st)

/-- The generic typed guest-memory write (`HostWriteFunc<T, U>`): exactly
two arguments or the neutral 0; evaluate value then address, convert the
value to `T` via `toVar` (`static_cast<T>`), store its bit pattern
(`BitCast<U>`, `toBits`) over `width` bytes, and return the converted
value. -/
def HostWriteFunc (width : ℕ) (toVar : Dbl → Dbl) (toBits : Dbl → ℕ) :
    List Arg → HostState → Dbl × HostState
  | [v, a], st =>
    let var := toVar v.val
    (var,
      { st with
        mem := writeBE st.mem (dblToU 32 a.val) (toBits var) width })
  | _, st => (.num 0, st)

/-- The generic width cast (`CastFunc<T, U>`): exactly one argument or the
neutral 0; reinterpret the evaluated value through `conv`
(`BitCast<T>(static_cast<U>(...))`). -/
def CastFunc (conv : Dbl → Dbl) : List Arg → HostState → Dbl × HostState
  | [a], st => (conv a.val, st)
  | _, st => (.num 0, st)

/-- The `callstack` host function (`CallstackFunc`): exactly one argument
or the neutral 0; fetch the call stack first (0 on failure), then treat
the argument as an address when its evaluation is not NaN, as a symbol
substring when it is a string literal, and as nothing otherwise. -/
def CallstackFunc : List Arg → HostState → Dbl × HostState
  | [a], st =>
    match st.stack with
    | none => (.num 0, st)
    | some frames =>
      if a.val.isnan = false then
        (boolToDbl (frames.any fun s => s.vAddress == dblToU 32 a.val), st)
      else
        match a.lit with
        | some cstr => (boolToDbl (frames.any fun s => strContains s.name cstr), st)
        | none => (.num 0, st)
  | _, st => (.num 0, st)

/-- Resolution of one `streq` argument (`ReadStringArg`): a non-NaN
evaluation is a guest address whose NUL-terminated string is read; a NaN
evaluation falls back to the string literal, if the node is one. -/
def ReadStringArg (m : Mem) (a : Arg) : Option String :=
  if a.val.isnan = false then some (HostGetString m (dblToU 32 a.val))
  else a.lit

/-- The `streq` host function (`StreqFunc`): exactly two arguments or the
neutral 0; resolve both arguments to strings (0 if either fails) and
compare them for equality. -/
def StreqFunc : List Arg → HostState → Dbl × HostState
  | [a, b], st =>
    match ReadStringArg st.mem a, ReadStringArg st.mem b with
    | some s0, some s1 => (boolToDbl (s0 == s1), st)
    | _, _ => (.num 0, st)
  | _, st => (.num 0, st)

/-- One entry of the host function catalog: name, fixed arity (the count
each function's `vec_len` guard enforces), and the function itself. -/
structure ExprFunc where
  name : String
  arity : ℕ
  func : List Arg → HostState → Dbl × HostState

/-- The host function catalog, as the `g_expr_funcs` table (the empty
terminator entry carries no function and is elided). -/
def g_expr_funcs : List ExprFunc := [
  ⟨"read_u8", 1, HostReadFunc 1 fun n => .num n⟩,
  ⟨"read_s8", 1, HostReadFunc 1 fun n => .num (toSigned 8 n)⟩,
  ⟨"read_u16", 1, HostReadFunc 2 fun n => .num n⟩,
  ⟨"read_s16", 1, HostReadFunc 2 fun n => .num (toSigned 16 n)⟩,
  ⟨"read_u32", 1, HostReadFunc 4 fun n => .num n⟩,
  ⟨"read_s32", 1, HostReadFunc 4 fun n => .num (toSigned 32 n)⟩,
  ⟨"read_f32", 1, HostReadFunc 4 (decodeIEEE 8 23)⟩,
  ⟨"read_f64", 1, HostReadFunc 8 (decodeIEEE 11 52)⟩,
  ⟨"write_u8", 2, HostWriteFunc 1 (fun d => .num (dblToU 8 d)) (dblToU 8)⟩,
  ⟨"write_u16", 2, HostWriteFunc 2 (fun d => .num (dblToU 16 d)) (dblToU 16)⟩,
  ⟨"write_u32", 2, HostWriteFunc 4 (fun d => .num (dblToU 32 d)) (dblToU 32)⟩,
  ⟨"write_f32", 2, HostWriteFunc 4 f32Round (encodeIEEE 8 23)⟩,
  ⟨"write_f64", 2, HostWriteFunc 8 id (encodeIEEE 11 52)⟩,
  ⟨"u8", 1, CastFunc fun d => .num (dblToU 8 d)⟩,
  ⟨"s8", 1, CastFunc fun d => .num (toSigned 8 (dblToU 8 d))⟩,
  ⟨"u16", 1, CastFunc fun d => .num (dblToU 16 d)⟩,
  ⟨"s16", 1, CastFunc fun d => .num (toSigned 16 (dblToU 16 d))⟩,
  ⟨"u32", 1, CastFunc fun d => .num (dblToU 32 d)⟩,
  ⟨"s32", 1, CastFunc fun d => .num (toSigned 32 (dblToU 32 d))⟩,
  ⟨"callstack", 1, CallstackFunc⟩,
  ⟨"streq", 2, StreqFunc⟩]

/-- Example guest memory (all addresses accessible, zero-filled) for the
concrete witnesses. -/
def memEx : Mem := { bytes := fun _ => 0, valid := fun _ => true }

/-- Example host state (accessible memory, successfully fetched empty
call stack) for the concrete witnesses. -/
def hostStEx : HostState := { mem := memEx, stack := some [] }

/-- Modelled from the spec: the expression language's `/` on doubles (the
grammar is interpreted by the external `expr` library) under IEEE rules —
any NaN operand and 0/0 give NaN, a finite nonzero value divided by zero
gives a signed infinity (signed zeros are elided by the model). -/
def Dbl.div : Dbl → Dbl → Dbl
  | .nan, _ => .nan
  | _, .nan => .nan
  | .inf _, .inf _ => .nan
  | .inf s, .num q => if q < 0 then .inf (!s) else .inf s
  | .num _, .inf _ => .num 0
  | .num a, .num b =>
    if b = 0 then (if a = 0 then .nan else .inf (decide (a < 0)))
    else .num (a / b)

theorem lexLt_irrefl (l : List Char) : lexLt l l = false := by
  induction l with
  | nil => rfl
  | cons a as ih => simp [lexLt, ih]

theorem lexLt_trans {a b c : List Char} (hab : lexLt a b = true)
    (hbc : lexLt b c = true) : lexLt a c = true := by
  induction a generalizing b c with
  | nil =>
    cases b with
    | nil => exact absurd hab (by simp [lexLt])
    | cons y ys =>
      cases c with
      | nil => exact absurd hbc (by simp [lexLt])
      | cons z zs => simp [lexLt]
  | cons x xs ih =>
    cases b with
    | nil => exact absurd hab (by simp [lexLt])
    | cons y ys =>
      cases c with
      | nil => exact absurd hbc (by simp [lexLt])
      | cons z zs =>
        simp only [lexLt] at hab hbc ⊢
        by_cases h1 : x.toNat < y.toNat
        · by_cases h2 : y.toNat < z.toNat
          · have h3 : x.toNat < z.toNat := Nat.lt_trans h1 h2
            simp [h3]
          · by_cases h4 : z.toNat < y.toNat
            · rw [if_neg h2, if_pos h4] at hbc
              exact absurd hbc (by simp)
            · have hyz : y.toNat = z.toNat :=
                Nat.le_antisymm (Nat.not_lt.mp h4) (Nat.not_lt.mp h2)
              have h3 : x.toNat < z.toNat := hyz ▸ h1
              simp [h3]
        · by_cases h5 : y.toNat < x.toNat
          · rw [if_neg h1, if_pos h5] at hab
            exact absurd hab (by simp)
          · have hxy : x.toNat = y.toNat :=
              Nat.le_antisymm (Nat.not_lt.mp h5) (Nat.not_lt.mp h1)
            rw [if_neg h1, if_neg h5] at hab
            by_cases h2 : y.toNat < z.toNat
            · have h3 : x.toNat < z.toNat := hxy ▸ h2
              simp [h3]
            · by_cases h4 : z.toNat < y.toNat
              · rw [if_neg h2, if_pos h4] at hbc
                exact absurd hbc (by simp)
              · have hyz : y.toNat = z.toNat :=
                  Nat.le_antisymm (Nat.not_lt.mp h4) (Nat.not_lt.mp h2)
                rw [if_neg h2, if_neg h4] at hbc
                have h3 : ¬ x.toNat < z.toNat := by omega
                have h6 : ¬ z.toNat < x.toNat := by omega
                rw [if_neg h3, if_neg h6]
                exact ih hab hbc

theorem keyLt_irrefl (a : String) : keyLt a a = false := lexLt_irrefl a.data

theorem keyLt_trans {a b c : String} (hab : keyLt a b = true)
    (hbc : keyLt b c = true) : keyLt a c = true := lexLt_trans hab hbc

theorem keyLt_ne {a b : String} (h : keyLt a b = true) : a ≠ b := by
  intro heq
  subst heq
  rw [keyLt_irrefl] at h
  exact Bool.false_ne_true h

theorem chainKeyLt_tail {kv : LookupKV} {l : List LookupKV}
    (h : chainKeyLt (kv :: l) = true) : chainKeyLt l = true := by
  cases l with
  | nil => rfl
  | cons b rest =>
    simp only [chainKeyLt, Bool.and_eq_true] at h
    exact h.2

theorem chainKeyLt_head_lt {kv : LookupKV} {l : List LookupKV}
    (h : chainKeyLt (kv :: l) = true) :
    ∀ kv' ∈ l, keyLt kv.1 kv'.1 = true := by
  induction l generalizing kv with
  | nil => intro kv' h'; cases h'
  | cons b rest ih =>
    intro kv' h'
    simp only [chainKeyLt, Bool.and_eq_true] at h
    rcases List.mem_cons.mp h' with rfl | h'
    · exact h.1
    · exact keyLt_trans h.1 (ih h.2 kv' h')

/-- In a strictly key-sorted list, exact-match lower-bound lookup finds the
unique entry holding any key that occurs in the list. -/
theorem lookupIn_eq_of_mem {l : List LookupKV} (hs : chainKeyLt l = true) :
    ∀ kv ∈ l, lookupIn l kv.1 = some kv.2 := by
  induction l with
  | nil => intro kv h; cases h
  | cons x xs ih =>
    intro kv hmem
    rcases List.mem_cons.mp hmem with rfl | hmem'
    · have hx : keyLt kv.1 kv.1 = false := keyLt_irrefl kv.1
      simp [lookupIn, lowerBoundSuffix, hx]
    · have hlt : keyLt x.1 kv.1 = true := chainKeyLt_head_lt hs kv hmem'
      have := ih (chainKeyLt_tail hs) kv hmem'
      simpa [lookupIn, lowerBoundSuffix, hlt] using this

/-- Keys of a strictly key-sorted list are pairwise distinct. -/
theorem nodup_keys_of_chainKeyLt {l : List LookupKV}
    (hs : chainKeyLt l = true) : (l.map Prod.fst).Nodup := by
  induction l with
  | nil => simp
  | cons x xs ih =>
    simp only [List.map_cons, List.nodup_cons]
    refine ⟨?_, ih (chainKeyLt_tail hs)⟩
    intro hmem
    rcases List.mem_map.mp hmem with ⟨kv, hkv, hk⟩
    exact keyLt_ne (chainKeyLt_head_lt hs kv hkv) hk.symm

set_option maxRecDepth 4000000 in
theorem sorted_lookup_chain : chainKeyLt sorted_lookup = true := by decide

/-- C1: the binding table is built once by sorting the static domain list
alphabetically by name, no two entries share a key, and exact-string
binary-search lookup returns the unique matching binding for every name in
the table. -/
theorem bindingTable_sorted_nodup_lookup_exact :
    sorted_lookup = sortByKey unsorted_lookup ∧
    chainKeyLt sorted_lookup = true ∧
    (sorted_lookup.map Prod.fst).Nodup ∧
    ∀ kv ∈ sorted_lookup, lookupBinding kv.1 = some kv.2 :=
  ⟨rfl, sorted_lookup_chain, nodup_keys_of_chainKeyLt sorted_lookup_chain,
    lookupIn_eq_of_mem sorted_lookup_chain⟩

theorem lowerBoundSuffix_sublist (name : String) :
    ∀ l : List LookupKV, ∀ kv ∈ lowerBoundSuffix name l, kv ∈ l := by
  intro l
  induction l with
  | nil => intro kv h; cases h
  | cons x xs ih =>
    intro kv h
    by_cases hx : keyLt x.1 name = true
    · rw [lowerBoundSuffix, if_pos hx] at h
      exact List.mem_cons_of_mem _ (ih kv h)
    · rw [lowerBoundSuffix, if_neg hx] at h
      exact h

/-- Lookup succeeds only by exact (case-sensitive) string equality with a
table entry: any returned binding is the binding of an entry whose key is
the searched name itself. -/
theorem lookupIn_mem {l : List LookupKV} {name : String} {b : VarBinding}
    (h : lookupIn l name = some b) : (name, b) ∈ l := by
  unfold lookupIn at h
  split at h
  · cases h
  · next kv rest hsuf =>
    split at h
    · next hk =>
      injection h with hb
      subst hb
      subst hk
      have hmem : kv ∈ l :=
        lowerBoundSuffix_sublist _ l kv (hsuf ▸ List.mem_cons_self kv rest)
      simpa using hmem
    · cases h

/-- C2: binding resolution is by case-sensitive exact match against the
shared table and happens once at construction (`Expression.binds` caches
`resolveBinding` of each name); a name with no table entry resolves to the
zero binding rather than failing, Sync-From sets such a slot to 0, and
evaluation still proceeds on those slots. -/
theorem variable_binding_resolution (e : Expression) (st : PPCState) :
    e.binds = e.varNames.map resolveBinding ∧
    (∀ name b, lookupBinding name = some b → (name, b) ∈ sorted_lookup) ∧
    (∀ (i : ℕ) (name : String),
      e.varNames[i]? = some name → lookupBinding name = none →
      e.binds[i]? = some defaultBind ∧
      (syncFrom st e.binds)[i]? = some (Dbl.num 0)) ∧
    (e.Evaluate st).result = (e.evalFn (syncFrom st e.binds)).1 := by
  refine ⟨rfl, fun name b h => lookupIn_mem h, ?_, rfl⟩
  intro i name hname hnone
  have hb : e.binds[i]? = some (resolveBinding name) := by
    simp [Expression.binds, List.getElem?_map, hname]
  have hzero : resolveBinding name = defaultBind := by
    unfold resolveBinding
    rw [hnone]
  rw [hzero] at hb
  refine ⟨hb, ?_⟩
  simp [syncFrom, List.getElem?_map, hb, syncFromValue, defaultBind]

set_option maxRecDepth 4000000 in
theorem variable_binding_resolution_witness :
    (syncFrom stEx exprEx.binds)[0]? = some (Dbl.num 0) :=
  ((variable_binding_resolution exprEx stEx).2.2.1 0 "foo" rfl
    (by decide)).2

/-- C3: each `Evaluate` call Sync-Froms every slot from processor state,
invokes the compiled form once on those slots, Sync-Tos the resulting
slots back, reports on them, and returns the double produced by the
evaluation step unchanged — including when that value is NaN. -/
theorem evaluate_order_and_result (e : Expression) (st : PPCState) :
    (e.Evaluate st).result = (e.evalFn (syncFrom st e.binds)).1 ∧
    (e.Evaluate st).state =
      syncTo st e.binds (e.evalFn (syncFrom st e.binds)).2 ∧
    (e.Evaluate st).report =
      Reporting e.varNames (e.evalFn (syncFrom st e.binds)).2
        (e.evalFn (syncFrom st e.binds)).1 ∧
    ((e.evalFn (syncFrom st e.binds)).1.isnan = true →
      (e.Evaluate st).result.isnan = true) :=
  ⟨rfl, rfl, rfl, fun h => h⟩

theorem evaluate_order_and_result_witness :
    (exprNan.Evaluate stEx).result.isnan = true :=
  (evaluate_order_and_result exprNan stEx).2.2.2 rfl

/-- C4: Sync-To never mutates processor state for a variable bound to the
program counter or carrying the zero binding: the per-variable write-back
is the identity on the state for those kinds, and a whole Sync-To pass
over only such bindings leaves the state unchanged. -/
theorem syncTo_readonly_bindings_no_mutation :
    (∀ (st : PPCState) (b : VarBinding) (v : Dbl),
      b.type = .PCtr ∨ b.type = .Zero → syncToState st b v = st) ∧
    (∀ (binds : List VarBinding) (slots : List Dbl) (st : PPCState),
      (∀ b ∈ binds, b.type = .PCtr ∨ b.type = .Zero) →
      syncTo st binds slots = st) := by
  have hone : ∀ (st : PPCState) (b : VarBinding) (v : Dbl),
      b.type = .PCtr ∨ b.type = .Zero → syncToState st b v = st := by
    intro st b v h
    rcases h with h | h <;> simp [syncToState, h]
  refine ⟨hone, ?_⟩
  intro binds
  induction binds with
  | nil => intro slots st _; cases slots <;> rfl
  | cons b bs ih =>
    intro slots st h
    cases slots with
    | nil => rfl
    | cons v vs =>
      rw [syncTo, hone st b v (h b (List.mem_cons_self b bs))]
      exact ih vs st fun b' hb' => h b' (List.mem_cons_of_mem b hb')

theorem syncTo_readonly_bindings_no_mutation_witness :
    syncTo stEx [⟨.PCtr, 0⟩, defaultBind] [.num 5, .num 7] = stEx :=
  syncTo_readonly_bindings_no_mutation.2 [⟨.PCtr, 0⟩, defaultBind]
    [.num 5, .num 7] stEx (by decide)

/-- C6: on Sync-To, slots of variables bound to a general register, a
special register, or the machine status word are stored through the
`u32(s64(value))` conversion — truncation toward zero reduced into the
32-bit slot (shown explicitly for values whose truncation fits in s64) —
while the slot of a variable bound to a float register is stored natively
as a double, with no integer conversion. -/
theorem syncTo_slot_conversions (st : PPCState) (i : ℕ) (v : Dbl) (q : ℚ)
    (hlo : -(2 : ℤ) ^ 63 ≤ ratTrunc q) (hhi : ratTrunc q < 2 ^ 63) :
    (syncToState st ⟨.GPR, i⟩ v).gpr i = dblToS64ToU32 v ∧
    (syncToState st ⟨.SPR, i⟩ v).spr i = dblToS64ToU32 v ∧
    (syncToState st ⟨.MSR, i⟩ v).msr = dblToS64ToU32 v ∧
    (syncToState st ⟨.FPR, i⟩ v).ps i = v ∧
    dblToS64ToU32 (.num q) = wrapU 32 (ratTrunc q) := by
  refine ⟨by simp [syncToState, updAt], by simp [syncToState, updAt],
    rfl, by simp [syncToState, updAtD], ?_⟩
  show (((ratTrunc q + 2 ^ 63).emod (2 ^ 64) - 2 ^ 63).emod (2 ^ 32)).toNat
      = ((ratTrunc q).emod (2 ^ 32)).toNat
  have hsplit : (2 : ℤ) ^ 64 = 2 ^ 63 + 2 ^ 63 := by ring
  have h1 : (ratTrunc q + 2 ^ 63).emod (2 ^ 64) = ratTrunc q + 2 ^ 63 := by
    apply Int.emod_eq_of_lt
    · linarith
    · linarith
  rw [h1, add_sub_cancel_right]

theorem syncTo_slot_conversions_witness :
    (syncToState stEx ⟨.GPR, 3⟩ (.num (-5))).gpr 3
        = dblToS64ToU32 (.num (-5)) ∧
    dblToS64ToU32 (.num (-5)) = wrapU 32 (ratTrunc (-5)) :=
  ⟨(syncTo_slot_conversions stEx 3 (.num (-5)) (-5) (by decide)
      (by decide)).1,
    (syncTo_slot_conversions stEx 3 (.num (-5)) (-5) (by decide)
      (by decide)).2.2.2.2⟩

theorem hostReadFunc_wrong_arity (width : ℕ) (interp : ℕ → Dbl)
    (args : List Arg) (st : HostState) (h : args.length ≠ 1) :
    HostReadFunc width interp args st = (.num 0, st) := by
  match args with
  | [] => rfl
  | [a] => exact absurd rfl h
  | a :: b :: t => rfl

theorem hostWriteFunc_wrong_arity (width : ℕ) (toVar : Dbl → Dbl)
    (toBits : Dbl → ℕ) (args : List Arg) (st : HostState)
    (h : args.length ≠ 2) :
    HostWriteFunc width toVar toBits args st = (.num 0, st) := by
  match args with
  | [] => rfl
  | [a] => rfl
  | [a, b] => exact absurd rfl h
  | a :: b :: c :: t => rfl

theorem castFunc_wrong_arity (conv : Dbl → Dbl) (args : List Arg)
    (st : HostState) (h : args.length ≠ 1) :
    CastFunc conv args st = (.num 0, st) := by
  match args with
  | [] => rfl
  | [a] => exact absurd rfl h
  | a :: b :: t => rfl

theorem callstackFunc_wrong_arity (args : List Arg) (st : HostState)
    (h : args.length ≠ 1) : CallstackFunc args st = (.num 0, st) := by
  match args with
  | [] => rfl
  | [a] => exact absurd rfl h
  | a :: b :: t => rfl

theorem streqFunc_wrong_arity (args : List Arg) (st : HostState)
    (h : args.length ≠ 2) : StreqFunc args st = (.num 0, st) := by
  match args with
  | [] => rfl
  | [a] => rfl
  | [a, b] => exact absurd rfl h
  | a :: b :: c :: t => rfl

/-- C5: every host function in the catalog, called with an argument count
different from its fixed arity, returns the neutral value 0 and leaves
the host state (in particular guest memory) untouched, rather than
failing or aborting the evaluation. -/
theorem catalog_wrong_arity_neutral_zero :
    ∀ f ∈ g_expr_funcs, ∀ (args : List Arg) (st : HostState),
      args.length ≠ f.arity → f.func args st = (.num 0, st) := by
  intro f hf args st hlen
  fin_cases hf <;> dsimp only at hlen ⊢ <;>
    first
    | exact hostReadFunc_wrong_arity _ _ args st hlen
    | exact hostWriteFunc_wrong_arity _ _ _ args st hlen
    | exact castFunc_wrong_arity _ args st hlen
    | exact callstackFunc_wrong_arity args st hlen
    | exact streqFunc_wrong_arity args st hlen

theorem catalog_wrong_arity_neutral_zero_witness :
    HostReadFunc 1 (fun n => Dbl.num n) [] hostStEx = (.num 0, hostStEx) :=
  catalog_wrong_arity_neutral_zero
    ⟨"read_u8", 1, HostReadFunc 1 fun n => .num n⟩
    (List.mem_cons_self _ _) [] hostStEx (by decide)

theorem writeByte_valid (m : Mem) (a v : ℕ) :
    (writeByte m a v).valid = m.valid := by
  unfold writeByte
  split <;> rfl

theorem readByte_writeByte_ne (m : Mem) (a b v : ℕ) (h : b ≠ a) :
    readByte (writeByte m a v) b = readByte m b := by
  unfold writeByte
  split
  · simp [readByte, updAt, h]
  · rfl

theorem readByte_writeByte_same (m : Mem) (a v : ℕ)
    (h : m.valid a = true) :
    readByte (writeByte m a v) a = v % 256 := by
  simp [writeByte, readByte, updAt, h]

theorem writeBE_valid (n : ℕ) : ∀ (m : Mem) (a v : ℕ),
    (writeBE m a v n).valid = m.valid := by
  induction n with
  | zero => intro m a v; rfl
  | succ n ih =>
    intro m a v
    rw [writeBE, ih, writeByte_valid]

theorem readByte_writeBE_below (n : ℕ) : ∀ (m : Mem) (a v b : ℕ),
    b < a → readByte (writeBE m a v n) b = readByte m b := by
  induction n with
  | zero => intro m a v b _; rfl
  | succ n ih =>
    intro m a v b hb
    rw [writeBE, ih _ _ _ _ (by omega),
      readByte_writeByte_ne _ _ _ _ (by omega)]

theorem readBE_writeBE (n : ℕ) : ∀ (m : Mem) (a v : ℕ),
    (∀ k, k < n → m.valid (a + k) = true) →
    readBE (writeBE m a v n) a n = v % 256 ^ n := by
  induction n with
  | zero => intro m a v _; simp [readBE, writeBE, pow_zero, Nat.mod_one]
  | succ n ih =>
    intro m a v h
    rw [writeBE, readBE]
    rw [readByte_writeBE_below n _ (a + 1) _ a (by omega)]
    rw [readByte_writeByte_same m a _ (by simpa using h 0 (by omega))]
    rw [ih (writeByte m a (v / 256 ^ n % 256)) (a + 1) (v % 256 ^ n) ?hv]
    case hv =>
      intro k hk
      rw [writeByte_valid]
      have := h (k + 1) (by omega)
      rw [show a + 1 + k = a + (k + 1) by omega]
      exact this
    rw [Nat.mod_mod_of_dvd _ (dvd_refl _), Nat.mod_mod_of_dvd _ (dvd_refl _)]
    rw [pow_succ, Nat.mod_mul, Nat.mul_comm (v / 256 ^ n % 256) (256 ^ n)]
    exact Nat.add_comm _ _

theorem dblToU_lt (w : ℕ) (d : Dbl) : dblToU w d < 2 ^ w := by
  have hpos : (0 : ℤ) < 2 ^ w := by positivity
  cases d with
  | nan => simpa [dblToU] using pow_pos (by norm_num : (0 : ℕ) < 2) w
  | inf s => simpa [dblToU] using pow_pos (by norm_num : (0 : ℕ) < 2) w
  | num q =>
    have h1 : 0 ≤ (ratTrunc q).emod (2 ^ w) := Int.emod_nonneg _ (by positivity)
    have h2 : (ratTrunc q).emod (2 ^ w) < 2 ^ w := Int.emod_lt_of_pos _ hpos
    simp only [dblToU, wrapU]
    have h4 : (ratTrunc q).emod (2 ^ w) < ((2 ^ w : ℕ) : ℤ) := by
      exact_mod_cast h2
    omega

theorem dblToU_of_small (w n : ℕ) (h : n < 2 ^ w) :
    dblToU w (.num n) = n := by
  have hfloor : Rat.floor ((n : ℕ) : ℚ) = n := by
    rw [Rat.floor_def']
    simp
  have htr : ratTrunc ((n : ℕ) : ℚ) = n := by
    rw [ratTrunc, if_neg (by simp), hfloor]
  have hmod : ((n : ℤ)).emod (2 ^ w) = n :=
    Int.emod_eq_of_lt (by positivity) (by exact_mod_cast h)
  simp [dblToU, wrapU, htr, hmod]

/-- C7: evaluating `write_u32(v, a)` writes the 32-bit value of `v` to
guest memory at `a` and returns the written value; a subsequent
`read_u32(a)` evaluation, with no intervening write and no memory-access
failure (all four byte addresses accessible), returns that same value. -/
theorem write_u32_read_u32_roundtrip (v : Dbl) (a : ℕ) (st : HostState)
    (ha : a < 2 ^ 32) (hvalid : ∀ k, k < 4 → st.mem.valid (a + k) = true) :
    HostWriteFunc 4 (fun d => .num (dblToU 32 d)) (dblToU 32)
        [⟨v, none⟩, ⟨.num a, none⟩] st
      = (.num (dblToU 32 v),
          { st with mem := writeBE st.mem a (dblToU 32 v) 4 }) ∧
    HostReadFunc 4 (fun n => .num n) [⟨.num a, none⟩]
        { st with mem := writeBE st.mem a (dblToU 32 v) 4 }
      = (.num (dblToU 32 v),
          { st with mem := writeBE st.mem a (dblToU 32 v) 4 }) := by
  have haddr : dblToU 32 (.num a) = a := dblToU_of_small 32 a ha
  have hval : dblToU 32 (.num (dblToU 32 v)) = dblToU 32 v :=
    dblToU_of_small 32 _ (dblToU_lt 32 v)
  constructor
  · show (Dbl.num (dblToU 32 v),
        { st with
          mem := writeBE st.mem (dblToU 32 (.num a))
            (dblToU 32 (.num (dblToU 32 v))) 4 }) = _
    rw [haddr, hval]
  · show (Dbl.num (readBE (writeBE st.mem a (dblToU 32 v) 4)
        (dblToU 32 (.num a)) 4), _) = _
    rw [haddr]
    rw [readBE_writeBE 4 st.mem a (dblToU 32 v) hvalid]
    rw [Nat.mod_eq_of_lt (by
      have := dblToU_lt 32 v
      norm_num at this ⊢
      omega)]

theorem write_u32_read_u32_roundtrip_witness :
    (HostReadFunc 4 (fun n => Dbl.num n)
        [⟨.num ((2147496960 : ℕ) : ℚ), none⟩]
        (HostState.mk
          (writeBE hostStEx.mem 2147496960 (dblToU 32 (.num 1234)) 4)
          hostStEx.stack)).1
      = .num 1234 := by
  have h := (write_u32_read_u32_roundtrip (.num 1234) 2147496960 hostStEx
      (by norm_num) (fun k _ => rfl)).2
  rw [h]
  rw [show dblToU 32 (Dbl.num 1234) = 1234 from by decide]
  norm_num

/-- C8: `streq` resolves each argument either as a string literal
directly (NaN evaluation, literal node) or, when the argument evaluates
to a number, as the NUL-terminated guest string at that address; it
returns 1 iff the two resolved strings are equal, 0 when they differ, and
0 whenever either argument does not resolve to a string. -/
theorem streq_resolution_and_equality (a b : Arg) (st : HostState) :
    (∀ s0 s1, ReadStringArg st.mem a = some s0 →
      ReadStringArg st.mem b = some s1 →
      StreqFunc [a, b] st = (.num (if s0 = s1 then 1 else 0), st)) ∧
    (ReadStringArg st.mem a = none ∨ ReadStringArg st.mem b = none →
      StreqFunc [a, b] st = (.num 0, st)) ∧
    (∀ v l, v.isnan = false →
      ReadStringArg st.mem ⟨v, l⟩
        = some (HostGetString st.mem (dblToU 32 v))) ∧
    (∀ l, ReadStringArg st.mem ⟨Dbl.nan, l⟩ = l) := by
  refine ⟨?_, ?_, ?_, ?_⟩
  · intro s0 s1 h0 h1
    simp only [StreqFunc, h0, h1]
    by_cases heq : s0 = s1 <;> simp [boolToDbl, heq]
  · intro h
    rcases h with h | h
    · simp only [StreqFunc, h]
    · rcases h0 : ReadStringArg st.mem a with _ | s0 <;>
        simp only [StreqFunc, h0, h]
  · intro v l hv
    simp [ReadStringArg, hv]
  · intro l
    simp [ReadStringArg, Dbl.isnan]

theorem streq_resolution_and_equality_witness :
    StreqFunc [⟨Dbl.nan, some "abc"⟩, ⟨Dbl.nan, some "abc"⟩] hostStEx
      = (.num 1, hostStEx) := by
  have h := (streq_resolution_and_equality ⟨Dbl.nan, some "abc"⟩
      ⟨Dbl.nan, some "abc"⟩ hostStEx).1 "abc" "abc" rfl rfl
  simpa using h

/-- C9: `callstack(x)` returns 0 when the call-stack collaborator cannot
produce a stack; with a numeric argument it returns 1 iff the argument,
truncated to a 32-bit address, equals some frame's return address, else
0; with a string-literal argument (NaN evaluation) it returns 1 iff some
frame's symbol name contains the literal as a substring, else 0. -/
theorem callstack_membership (a : Arg) (st : HostState) :
    (st.stack = none → CallstackFunc [a] st = (.num 0, st)) ∧
    (∀ frames, st.stack = some frames → a.val.isnan = false →
      CallstackFunc [a] st
        = (boolToDbl (frames.any fun s => s.vAddress == dblToU 32 a.val),
            st) ∧
      ((frames.any fun s => s.vAddress == dblToU 32 a.val) = true ↔
        ∃ s ∈ frames, s.vAddress = dblToU 32 a.val)) ∧
    (∀ frames lit, st.stack = some frames → a.val.isnan = true →
      a.lit = some lit →
      CallstackFunc [a] st
        = (boolToDbl (frames.any fun s => strContains s.name lit), st) ∧
      ((frames.any fun s => strContains s.name lit) = true ↔
        ∃ s ∈ frames, strContains s.name lit = true)) := by
  obtain ⟨mem, stack⟩ := st
  refine ⟨?_, ?_, ?_⟩
  · intro h
    subst h
    rfl
  · intro frames hf hnan
    subst hf
    constructor
    · simp [CallstackFunc, hnan]
    · simp [List.any_eq_true]
  · intro frames lit hf hnan hlit
    subst hf
    constructor
    · simp [CallstackFunc, hnan, hlit]
    · simp [List.any_eq_true]

theorem callstack_membership_witness :
    CallstackFunc [⟨.num 0, none⟩] hostStEx = (.num 0, hostStEx) := by
  have h := ((callstack_membership ⟨.num 0, none⟩ hostStEx).2.1 [] rfl
      rfl).1
  simpa [boolToDbl] using h

/-- C10: in `callstack` and `streq` the numeric-versus-string decision is
made by testing the argument's evaluated value for NaN: an argument whose
evaluation is NaN — for example `0 / 0` — skips the numeric path and is
treated as a candidate string literal, so a non-literal NaN argument
makes `callstack` return 0 and makes `streq` treat it as unresolvable and
return 0. -/
theorem nan_argument_string_dispatch (st : HostState)
    (frames : List CallstackEntry) (a b : Arg)
    (hstack : st.stack = some frames)
    (hval : a.val = Dbl.div (.num 0) (.num 0)) (hlit : a.lit = none) :
    (Dbl.div (.num 0) (.num 0)).isnan = true ∧
    CallstackFunc [a] st = (.num 0, st) ∧
    ReadStringArg st.mem a = none ∧
    StreqFunc [a, b] st = (.num 0, st) := by
  have hnan : a.val.isnan = true := by
    rw [hval]
    decide
  have hra : ReadStringArg st.mem a = none := by
    rw [ReadStringArg, if_neg (by simp [hnan]), hlit]
  refine ⟨by decide, ?_, hra, ?_⟩
  · obtain ⟨mem, stack⟩ := st
    simp only at hstack
    subst hstack
    simp only [CallstackFunc, hnan, hlit]
    simp
  · simp only [StreqFunc, hra]

set_option maxRecDepth 4000000 in
theorem bindingTable_sorted_nodup_lookup_exact_witness :
    lookupBinding "r3" = some ⟨.GPR, 3⟩ :=
  bindingTable_sorted_nodup_lookup_exact.2.2.2 ("r3", ⟨.GPR, 3⟩) (by decide)

theorem nan_argument_string_dispatch_witness :
    CallstackFunc [⟨Dbl.div (.num 0) (.num 0), none⟩] hostStEx
      = (.num 0, hostStEx) :=
  (nan_argument_string_dispatch hostStEx [] ⟨Dbl.div (.num 0) (.num 0), none⟩
    ⟨.num 0, none⟩ rfl rfl rfl).2.1
